import Mathlib

/-!
Verification of the ArgusClaw gateway core against its specification.

The development shallowly embeds the request-processing kernel of the
gateway: the action classifier (packages/gateway/src/classifier.ts), the
legacy orchestrator loop (packages/gateway/src/orchestrator.ts), the soul
integrity check (packages/gateway/src/soul.ts) and the skills alwaysLoad
budget (packages/gateway/src/skills.ts).  Strings are modelled as lists of
characters so that every operation the code performs (startsWith, endsWith,
slice, concatenation) is a plain list operation.
-/

namespace ArgusClaw

/-- Strings of the embedded programs, as lists of characters. -/
abbrev Str := List Char

/-- The characters of a Lean string literal, used to write embedded strings. -/
def chars (s : String) : Str := s.data

/-! ## Glob matching (model of the picomatch dependency)

classifier.ts delegates raw glob matching to the third-party picomatch
library, called as picomatch.isMatch(value, pattern, { dot: true }).  The
library is not part of this repository, so the fragment of its behaviour the
classifier exercises is modelled here: literal characters, a star that
matches within one path segment, a globstar that spans segments but never
consumes a bare . or .. segment (true even with dot: true), and a negation
extglob covering a whole pattern, which like a star does not cross a slash.
The repository pins this behaviour in packages/gateway/tests/classifier.test.ts
(single star not crossing slashes, dotfiles matched, traversal segments not
matched by globstar, negation patterns); those pinned cases are replayed as
examples after the definitions. -/

/-- Tokens of the glob fragment the classifier uses.  A slashGlobstar stands
for a slash directly followed by a globstar: picomatch makes the whole group
optional, so a trailing segment-level globstar also matches nothing. -/
inductive GlobToken
  | lit (c : Char)
  | star
  | globstar
  | slashGlobstar
  deriving DecidableEq, Repr

/-- Tokenize a glob pattern: a slash followed by a double star becomes a
slashGlobstar, a double star a globstar, a single star a star, and any other
character a literal. -/
def tokenize : Str → List GlobToken
  | [] => []
  | '/' :: '*' :: '*' :: rest => GlobToken.slashGlobstar :: tokenize rest
  | '*' :: '*' :: rest => GlobToken.globstar :: tokenize rest
  | '*' :: rest => GlobToken.star :: tokenize rest
  | c :: rest => GlobToken.lit c :: tokenize rest

/-- Whether the remaining value starts with a complete . or .. path segment.
The globstar of picomatch refuses to start consuming at such a position even
with dot: true, which is what keeps un-normalised traversal paths from
matching. -/
def dotsSegment : Str → Bool
  | ['.'] => true
  | '.' :: '/' :: _ => true
  | ['.', '.'] => true
  | '.' :: '.' :: '/' :: _ => true
  | _ => false

/-- One step of glob matching.  The boolean argument records whether the
match position sits at a path-segment boundary (start of the value or just
after a slash), which is what the globstar dots-exclusion looks at.  Fuel
bounds the recursion; every call consumes a token or a character, so the
wrapper passes enough fuel for the recursion never to bottom out. -/
def globMatchAux : Nat → List GlobToken → Str → Bool → Bool
  | 0, _, _, _ => false
  | _ + 1, [], [], _ => true
  | _ + 1, [], _ :: _, _ => false
  | _ + 1, GlobToken.lit _ :: _, [], _ => false
  | fuel + 1, GlobToken.lit c :: ts, d :: ds, _ =>
      c == d && globMatchAux fuel ts ds (c == '/')
  | fuel + 1, GlobToken.star :: ts, v, b =>
      globMatchAux fuel ts v b ||
        (match v with
         | [] => false
         | c :: cs => c != '/' && globMatchAux fuel (GlobToken.star :: ts) cs false)
  | fuel + 1, GlobToken.globstar :: ts, v, b =>
      globMatchAux fuel ts v b ||
        (match v with
         | [] => false
         | c :: cs =>
             !(b && dotsSegment (c :: cs)) &&
               globMatchAux fuel (GlobToken.globstar :: ts) cs (c == '/'))
  | fuel + 1, GlobToken.slashGlobstar :: ts, v, b =>
      globMatchAux fuel ts v b ||
        (match v with
         | '/' :: cs => globMatchAux fuel (GlobToken.globstar :: ts) cs true
         | _ => false)

/-- Full match of a value against a tokenized glob pattern. -/
def globMatch (ts : List GlobToken) (v : Str) : Bool :=
  globMatchAux (ts.length + v.length + 1) ts v true

/-- Whether a pattern has the shape of the negation syntax the classifier
recognises: pattern.startsWith('!(') and pattern.endsWith(')'). -/
def negShape (p : Str) : Bool :=
  match p with
  | '!' :: '(' :: rest => rest.getLast? == some ')'
  | _ => false

/-- The inner pattern of a negation-shaped pattern: pattern.slice(2, -1). -/
def negInner (p : Str) : Str := (p.drop 2).dropLast

/-- Model of picomatch.isMatch(value, pattern, { dot: true }) on the
fragment this repository uses.  A whole-pattern negation extglob compiles in
picomatch to a negative lookahead for the inner pattern followed by a plain
star (a globstar when the inner pattern spans directories), so it matches
exactly the values the bound matches that the inner pattern does not; in
particular with a slash-free inner pattern it never matches a value that
contains a slash.  Any other pattern is a plain glob. -/
def picomatchIsMatch (value pattern : Str) : Bool :=
  if negShape pattern then
    let inner := negInner pattern
    let bound :=
      if inner.contains '/' then [GlobToken.globstar] else [GlobToken.star]
    globMatch bound value && !globMatch (tokenize inner) value
  else
    globMatch (tokenize pattern) value

/-- classifier.ts matchesPattern: the negation syntax !(inner) is handled by
the classifier itself (strip the wrapper, negate the picomatch answer);
everything else goes to picomatch directly. -/
def matchesPattern (value pattern : Str) : Bool :=
  if negShape pattern then !picomatchIsMatch value (negInner pattern)
  else picomatchIsMatch value pattern

/-! ## Tool inputs and rule matching (classifier.ts) -/

/-- Values of a tool input record.  The code receives arbitrary JSON; the
classifier only distinguishes null/undefined from everything else and then
string-coerces the value, so the embedded values carry the fragments that
occur in tool inputs together with their JavaScript string coercion. -/
inductive JsonValue
  | null
  | str (s : Str)
  | boolean (b : Bool)
  | num (n : Int)
  deriving DecidableEq, Repr

/-- JavaScript String(value) for the embedded non-null values. -/
def jsToString : JsonValue → Str
  | JsonValue.null => chars "null"
  | JsonValue.str s => s
  | JsonValue.boolean true => chars "true"
  | JsonValue.boolean false => chars "false"
  | JsonValue.num n => (toString n).data

/-- A tool input: a record from field names to values.  A missing key models
an undefined field; an explicit JsonValue.null models a null field. -/
abbrev ToolInput := List (Str × JsonValue)

/-- Field lookup in a tool input (toolInput[field]). -/
def lookupField (input : ToolInput) (field : Str) : Option JsonValue :=
  match input with
  | [] => none
  | (k, v) :: rest => if k = field then some v else lookupField rest field

/-- classifier.ts matchesCondition: an undefined or null field never
matches; otherwise the string-coerced value is matched against the glob. -/
def matchesCondition (field pattern : Str) (toolInput : ToolInput) : Bool :=
  match lookupField toolInput field with
  | none => false
  | some JsonValue.null => false
  | some v => matchesPattern (jsToString v) pattern

/-- A classification rule: a tool name and optional conditions, each a field
name paired with a glob pattern, in declaration order. -/
structure ActionCondition where
  tool : Str
  conditions : Option (List (Str × Str))
  deriving DecidableEq, Repr

/-- classifier.ts matchesRule: the tool name must match exactly; with no
conditions object that is sufficient; otherwise every condition must match. -/
def matchesRule (rule : ActionCondition) (toolName : Str) (toolInput : ToolInput) : Bool :=
  if rule.tool ≠ toolName then false
  else
    match rule.conditions with
    | none => true
    | some conds => conds.all fun fp => matchesCondition fp.1 fp.2 toolInput

/-- The action tiers of the HITL system. -/
inductive ActionTier
  | autoApprove
  | notify
  | requireApproval
  deriving DecidableEq, Repr

/-- The three rule lists of config.actionTiers. -/
structure ActionTiersConfig where
  autoApprove : List ActionCondition
  notify : List ActionCondition
  requireApproval : List ActionCondition
  deriving Repr

/-- The tier walk of classifyAction: the first tier one of whose rules
matches wins; an empty remainder yields the fail-safe default. -/
def classifyTiers (toolName : Str) (toolInput : ToolInput) :
    List (ActionTier × List ActionCondition) → ActionTier
  | [] => ActionTier.requireApproval
  | (tier, rules) :: rest =>
      if rules.any fun r => matchesRule r toolName toolInput then tier
      else classifyTiers toolName toolInput rest

/-- classifier.ts classifyAction: walk autoApprove, then notify, then
requireApproval; default to require-approval when nothing matches. -/
def classifyAction (toolName : Str) (toolInput : ToolInput)
    (config : ActionTiersConfig) : ActionTier :=
  classifyTiers toolName toolInput
    [(ActionTier.autoApprove, config.autoApprove),
     (ActionTier.notify, config.notify),
     (ActionTier.requireApproval, config.requireApproval)]

/-! ## Orchestrator (orchestrator.ts)

The agentic loop of Orchestrator.chat is embedded as a function of the
conversation so far and of three oracles: the sequence of LLM responses
(one per round-trip, indexed by the number of requests already made), the
HITL gate and the dispatcher, both keyed by tool name and tool input — the
remaining fields of the gate request (sessionId, chatId, reason,
planContext) are constant over one call and do not influence the control
flow modelled here.  Audit logging and console output are side effects with
no bearing on the claims and are not modelled.  Beyond the source's
{ text, messages } return value, the model also reports how many LLM
requests were made, which the source exposes through its audit log. -/

/-- A content block of an LLM conversation turn: text, a tool call, or a
tool result. -/
inductive ContentBlock
  | text (t : Str)
  | toolUse (id : Str) (name : Str) (input : ToolInput)
  | toolResult (toolUseId : Str) (content : Str)
  deriving DecidableEq, Repr

/-- Message content: either a plain string or a list of content blocks. -/
inductive MessageContent
  | ofString (s : Str)
  | blocks (bs : List ContentBlock)
  deriving DecidableEq, Repr

/-- The role of a message in the Anthropic message format the legacy
orchestrator uses; tool results travel in a user-role message. -/
inductive Role
  | user
  | assistant
  deriving DecidableEq, Repr

/-- One entry of the conversation history. -/
structure MessageParam where
  role : Role
  content : MessageContent
  deriving DecidableEq, Repr

/-- One LLM response: its stop reason (a string such as tool_use, end_turn
or max_tokens) and its content blocks. -/
structure LLMResponse where
  stopReason : Str
  content : List ContentBlock
  deriving DecidableEq, Repr

/-- What the HITL gate returns for one tool call. -/
structure GateResult where
  proceed : Bool
  tier : ActionTier
  approvalId : Option Str
  deriving DecidableEq, Repr

/-- The result an executor returns through the dispatcher. -/
structure ExecutorResult where
  success : Bool
  exitCode : Int
  stdout : Str
  stderr : Str
  durationMs : Nat
  error : Option Str
  deriving DecidableEq, Repr

/-- The oracles of one Orchestrator.chat call. -/
structure OrchestratorEnv where
  respond : Nat → LLMResponse
  gate : Str → ToolInput → GateResult
  dispatch : Str → ToolInput → ExecutorResult
  maxOutput : Nat

/-- The tool names dispatchToolCall routes to the dispatcher. -/
def knownTools : List Str :=
  [chars "run_shell_command", chars "read_file", chars "write_file",
   chars "list_directory", chars "search_files"]

/-- orchestrator.ts dispatchToolCall: a known tool is routed to the
dispatcher (the translation of its arguments into an executor task is
dispatcher bookkeeping, carried by the oracle); an unknown tool yields a
synthesized failure without touching the dispatcher. -/
def dispatchToolCall (dispatch : Str → ToolInput → ExecutorResult)
    (toolName : Str) (input : ToolInput) : ExecutorResult :=
  if toolName ∈ knownTools then dispatch toolName input
  else
    { success := false, exitCode := -1, stdout := [],
      stderr := chars "Unknown tool: " ++ toolName, durationMs := 0,
      error := some (chars "Unknown tool: " ++ toolName) }

/-- The rejection message the orchestrator feeds back to the LLM when the
gate declines a tool call. -/
def rejectionMessage (toolName : Str) : Str :=
  chars "Action rejected by the user. The user declined to approve: " ++
    toolName ++
    chars ". Please adjust your approach or ask the user how they would like to proceed."

/-- The tool_result content for one tool call: on approval the dispatch
result (stdout on success, an error rendering otherwise) truncated to the
configured maximum output; on rejection the fixed rejection message. -/
def resultContentFor (gate : Str → ToolInput → GateResult)
    (dispatch : Str → ToolInput → ExecutorResult) (maxOutput : Nat)
    (toolName : Str) (input : ToolInput) : Str :=
  let gr := gate toolName input
  if gr.proceed then
    let r := dispatchToolCall dispatch toolName input
    let content :=
      if r.success then r.stdout
      else chars "Error: " ++ r.error.getD r.stderr ++ chars "\nStderr: " ++ r.stderr
    content.take maxOutput
  else rejectionMessage toolName

/-- The tool_use blocks of a response, in order, as (id, name, input). -/
def toolUses (bs : List ContentBlock) : List (Str × Str × ToolInput) :=
  bs.filterMap fun b =>
    match b with
    | ContentBlock.toolUse id name input => some (id, name, input)
    | _ => none

/-- The text blocks of a response, in order. -/
def textBlocks (bs : List ContentBlock) : List Str :=
  bs.filterMap fun b =>
    match b with
    | ContentBlock.text t => some t
    | _ => none

/-- Processing of one tool_use block inside the loop: gate, then dispatch
or reject, then wrap the content as a tool_result block for the same id. -/
def processToolUse (env : OrchestratorEnv) (tu : Str × Str × ToolInput) :
    ContentBlock :=
  ContentBlock.toolResult tu.1
    (resultContentFor env.gate env.dispatch env.maxOutput tu.2.1 tu.2.2)

/-- What one Orchestrator.chat call returns, together with the number of
LLM round-trips it made. -/
structure ChatResult where
  text : Str
  messages : List MessageParam
  llmCalls : Nat
  deriving Repr

/-- orchestrator.ts MAX_ITERATIONS. -/
def MAX_ITERATIONS : Nat := 10

/-- The fixed text returned when the iteration limit is hit. -/
def maxIterationsMessage : Str :=
  chars "I reached the maximum number of tool call iterations. Please try again with a simpler request."

/-- The while loop of Orchestrator.chat.  The first argument is the
remaining iteration budget (MAX_ITERATIONS minus the iterations already
done), the second the number of LLM requests already made, the third the
working message list.  A tool_use response appends the assistant turn and
one user turn holding every tool result in call order, then loops; any
other stop reason concatenates the text blocks and returns. -/
def chatGo (env : OrchestratorEnv) :
    Nat → Nat → List MessageParam → ChatResult
  | 0, calls, msgs => ⟨maxIterationsMessage, msgs, calls⟩
  | fuel + 1, calls, msgs =>
      let response := env.respond calls
      if response.stopReason = chars "tool_use" then
        let msgs1 := msgs ++ [⟨Role.assistant, MessageContent.blocks response.content⟩]
        let results := (toolUses response.content).map (processToolUse env)
        let msgs2 := msgs1 ++ [⟨Role.user, MessageContent.blocks results⟩]
        chatGo env fuel (calls + 1) msgs2
      else
        let t := (textBlocks response.content).flatten
        ⟨t, msgs ++ [⟨Role.assistant, MessageContent.ofString t⟩], calls + 1⟩

/-- orchestrator.ts Orchestrator.chat. -/
def chat (env : OrchestratorEnv) (messages : List MessageParam) : ChatResult :=
  chatGo env MAX_ITERATIONS 0 messages

/-- The tool_call ids across the assistant turns of a history, in order. -/
def toolCallIds (msgs : List MessageParam) : List Str :=
  (msgs.map fun m =>
    match m.role, m.content with
    | Role.assistant, MessageContent.blocks bs => (toolUses bs).map fun tu => tu.1
    | _, _ => []).flatten

/-- The ids the tool_result blocks of a list of blocks answer, in order. -/
def resultIdsOf (bs : List ContentBlock) : List Str :=
  bs.filterMap fun b =>
    match b with
    | ContentBlock.toolResult i _ => some i
    | _ => none

/-- Whether a block is a tool_result block. -/
def isToolResult : ContentBlock → Bool
  | ContentBlock.toolResult _ _ => true
  | _ => false

/-- The tool_result ids across the user-role tool_results turns of a
history, in order. -/
def toolResultIds (msgs : List MessageParam) : List Str :=
  (msgs.map fun m =>
    match m.role, m.content with
    | Role.user, MessageContent.blocks bs => resultIdsOf bs
    | _, _ => []).flatten

/-- The shape of what one chat call appends to the history: a run of
iteration chunks — an assistant turn followed by one single user-role
tool_results turn whose blocks are all tool results and answer exactly the
tool calls of that assistant turn, in the same order — ending either with a
final assistant text turn or with nothing (iteration limit hit). -/
inductive ChatDelta : List MessageParam → Prop
  | maxed : ChatDelta []
  | final (t : Str) : ChatDelta [⟨Role.assistant, MessageContent.ofString t⟩]
  | step (bs rs : List ContentBlock) (rest : List MessageParam)
      (hall : ∀ b ∈ rs, isToolResult b = true)
      (hids : resultIdsOf rs = (toolUses bs).map fun tu => tu.1)
      (hrest : ChatDelta rest) :
      ChatDelta (⟨Role.assistant, MessageContent.blocks bs⟩ ::
        ⟨Role.user, MessageContent.blocks rs⟩ :: rest)

/-- A constant LLM response sequence that never stops with end_turn yet
ends the loop at once: stop reason max_tokens with a single text block. -/
def cexEnv : OrchestratorEnv where
  respond := fun _ =>
    { stopReason := chars "max_tokens", content := [ContentBlock.text (chars "partial")] }
  gate := fun _ _ => { proceed := true, tier := ActionTier.autoApprove, approvalId := none }
  dispatch := fun _ _ =>
    { success := true, exitCode := 0, stdout := [], stderr := [], durationMs := 0, error := none }
  maxOutput := 1000

/-- An environment whose gate rejects everything, used to exercise the
rejection path at a concrete input. -/
def rejEnv : OrchestratorEnv where
  respond := fun _ =>
    { stopReason := chars "end_turn", content := [ContentBlock.text (chars "ok")] }
  gate := fun _ _ =>
    { proceed := false, tier := ActionTier.requireApproval, approvalId := some (chars "req-1") }
  dispatch := fun _ _ =>
    { success := true, exitCode := 0, stdout := chars "out", stderr := [], durationMs := 0, error := none }
  maxOutput := 1000

/-! ## Memory-aware tool processing

Modelled from the spec: the memory-aware Orchestrator variant — the one
exercised by packages/gateway/tests/orchestrator.test.ts through setMemory —
is not among the provided source files (the provided orchestrator.ts is the
legacy variant that gates every tool).  Spec section 4.1 step 4b: a memory
tool (save_memory, search_memory) is executed in-process and skips the HITL
Gate, always treated as auto-approve; every other tool call goes through
the Gate and then the dispatcher exactly as in the legacy loop. -/

/-- The oracles of the memory-aware tool-call processing: the gate, the
dispatcher and the in-process memory-tool executor (the text its tool_result
carries). -/
structure MemoryEnv where
  gate : Str → ToolInput → GateResult
  dispatch : Str → ToolInput → ExecutorResult
  maxOutput : Nat
  memoryExec : Str → ToolInput → Str

/-- The in-process memory tools. -/
def memoryToolNames : List Str := [chars "save_memory", chars "search_memory"]

/-- Modelled from the spec: processing of one tool_use block in the
memory-aware variant — memory tools run in-process without consulting the
gate; everything else takes the gated path of the legacy loop. -/
def processToolUseMem (m : MemoryEnv) (tu : Str × Str × ToolInput) :
    ContentBlock :=
  if tu.2.1 ∈ memoryToolNames then
    ContentBlock.toolResult tu.1 (m.memoryExec tu.2.1 tu.2.2)
  else
    ContentBlock.toolResult tu.1
      (resultContentFor m.gate m.dispatch m.maxOutput tu.2.1 tu.2.2)

/-! ## Soul integrity (soul.ts) -/

/-- soul.ts FALLBACK_IDENTITY. -/
def FALLBACK_IDENTITY : Str :=
  chars "You are ArgusClaw, a personal AI assistant. Be helpful, concise, and direct."

/-- The audit events SoulManager.getContent can record. -/
inductive SoulEvent
  | soulTamperDetected (expectedHash actualHash : Str)
  deriving DecidableEq, Repr

/-- SoulManager.getContent as a function of the hash function, the blessed
hash and the file system state (none models a missing soul file).  Returns
the content or the thrown error message, together with the audit events
recorded.  The hash check only runs when a blessed hash exists (a non-empty
string, the truthiness test of the source). -/
def soulGetContent (hash : Str → Str) (blessedHash : Str) (file : Option Str) :
    Except Str Str × List SoulEvent :=
  match file with
  | none => (Except.error (chars "Soul file not found"), [])
  | some content =>
      let currentHash := hash content
      if blessedHash ≠ [] ∧ currentHash ≠ blessedHash then
        (Except.error (chars "Soul file integrity check failed: hash mismatch"),
         [SoulEvent.soulTamperDetected blessedHash currentHash])
      else (Except.ok content, [])

/-- SoulManager.getContentSafe: the catch-all wrapper; every error becomes
the fallback identity, so the read is total and never escalates. -/
def soulGetContentSafe (hash : Str → Str) (blessedHash : Str)
    (file : Option Str) : Str × List SoulEvent :=
  match soulGetContent hash blessedHash file with
  | (Except.ok c, evs) => (c, evs)
  | (Except.error _, evs) => (FALLBACK_IDENTITY, evs)

/-! ## Skills alwaysLoad budget (skills.ts) -/

/-- One loaded skill as getAlwaysLoadContent sees it.  The content field is
what getSkillContent returns for the skill at this read: none models a null
return (missing skill, disabled, integrity failure or read error). -/
structure Skill where
  name : Str
  enabled : Bool
  alwaysLoad : Bool
  content : Option Str
  deriving DecidableEq, Repr

/-- The iteration of getAlwaysLoadContent with its running character count.
A disabled or non-alwaysLoad skill is skipped; a null or empty content is
skipped (the falsiness test of the source); a skill whose content would push
the running total over the budget is skipped with iteration continuing; an
included skill adds its content length to the running total. -/
def getAlwaysLoadContentGo (budget : Nat) :
    List Skill → Nat → List (Str × Str)
  | [], _ => []
  | s :: rest, used =>
      if s.enabled && s.alwaysLoad then
        match s.content with
        | none => getAlwaysLoadContentGo budget rest used
        | some c =>
            if c = [] then getAlwaysLoadContentGo budget rest used
            else if used + c.length > budget then
              getAlwaysLoadContentGo budget rest used
            else (s.name, c) :: getAlwaysLoadContentGo budget rest (used + c.length)
      else getAlwaysLoadContentGo budget rest used

/-- skills.ts SkillsManager.getAlwaysLoadContent. -/
def getAlwaysLoadContent (skills : List Skill) (budget : Nat) :
    List (Str × Str) :=
  getAlwaysLoadContentGo budget skills 0

/-- The characters the returned contents occupy in total. -/
def sumLens (l : List (Str × Str)) : Nat :=
  (l.map fun p => p.2.length).sum

/-- Two alwaysLoad skills: a five-character one and a later three-character
one, against a budget of four, to exhibit skip-then-include. -/
def demoSkills : List Skill :=
  [⟨chars "big", true, true, some (chars "aaaaa")⟩,
   ⟨chars "tiny", true, true, some (chars "abc")⟩]

/-! ## Matcher model checks

The cases packages/gateway/tests/classifier.test.ts pins for matchesPattern,
replayed against the model. -/

example : matchesPattern (chars "/sandbox/file.txt") (chars "/sandbox/*") = true := by decide

example : matchesPattern (chars "/sandbox/deep") (chars "/sandbox/*") = true := by decide

example : matchesPattern (chars "/sandbox/deep/nested/file.txt") (chars "/sandbox/*") = false := by
  decide

example : matchesPattern (chars "/workspace/file.txt") (chars "/sandbox/*") = false := by decide

example : matchesPattern (chars "/sandbox") (chars "/sandbox/*") = false := by decide

example : matchesPattern (chars "/sandbox/a/b/c/d.txt") (chars "/sandbox/**") = true := by decide

example : matchesPattern (chars "/workspace/file.txt") (chars "!(/sandbox/*)") = true := by decide

example : matchesPattern (chars "/sandbox/file.txt") (chars "!(/sandbox/*)") = false := by decide

example : matchesPattern (chars "/etc/passwd") (chars "!(/sandbox/*)") = true := by decide

example : matchesPattern (chars "/") (chars "!(/sandbox/*)") = true := by decide

example : matchesPattern (chars "/sandbox") (chars "!(/sandbox/*)") = true := by decide

example : matchesPattern (chars "/sandbox/.hidden") (chars "/sandbox/*") = true := by decide

example : matchesPattern (chars "/workspace/.env") (chars "/workspace/*") = true := by decide

/-! ## Classifier claims -/

/-- matchesCondition succeeds exactly when the field is present, non-null
and its string coercion matches the pattern. -/
theorem matchesCondition_iff (field pattern : Str) (input : ToolInput) :
    matchesCondition field pattern input = true ↔
      ∃ v, lookupField input field = some v ∧ v ≠ JsonValue.null ∧
        matchesPattern (jsToString v) pattern = true := by
  unfold matchesCondition
  cases h : lookupField input field with
  | none => simp [h]
  | some v => cases v <;> simp [h]

/-- C2.  A rule matches exactly when its tool name equals the called tool
name and every (field, pattern) condition finds a non-null field in the
tool input whose string coercion matches the glob pattern; a missing or
null field makes the rule not match. -/
theorem matchesRule_iff (rule : ActionCondition) (toolName : Str)
    (input : ToolInput) :
    matchesRule rule toolName input = true ↔
      rule.tool = toolName ∧
        ∀ fp ∈ rule.conditions.getD [], ∃ v,
          lookupField input fp.1 = some v ∧ v ≠ JsonValue.null ∧
            matchesPattern (jsToString v) fp.2 = true := by
  unfold matchesRule
  by_cases ht : rule.tool = toolName
  · subst ht
    cases hc : rule.conditions with
    | none => simp [hc]
    | some conds => simp [hc, List.all_eq_true, matchesCondition_iff]
  · simp [ht]

/-- C1.  classifyAction walks the tiers in the order autoApprove, notify,
requireApproval and returns the tier of the first rule that matches; when
no rule of the first two tiers matches it returns require-approval, whether
a requireApproval rule matches or not (the fail-safe default coincides with
the last tier). -/
theorem classifyAction_first_match (toolName : Str) (input : ToolInput)
    (config : ActionTiersConfig) :
    (classifyAction toolName input config = ActionTier.autoApprove ↔
      config.autoApprove.any (fun r => matchesRule r toolName input) = true) ∧
    (classifyAction toolName input config = ActionTier.notify ↔
      config.autoApprove.any (fun r => matchesRule r toolName input) = false ∧
        config.notify.any (fun r => matchesRule r toolName input) = true) ∧
    (classifyAction toolName input config = ActionTier.requireApproval ↔
      config.autoApprove.any (fun r => matchesRule r toolName input) = false ∧
        config.notify.any (fun r => matchesRule r toolName input) = false) := by
  have e : classifyAction toolName input config =
      (if config.autoApprove.any (fun r => matchesRule r toolName input) then
        ActionTier.autoApprove
      else if config.notify.any (fun r => matchesRule r toolName input) then
        ActionTier.notify
      else if config.requireApproval.any (fun r => matchesRule r toolName input) then
        ActionTier.requireApproval
      else ActionTier.requireApproval) := rfl
  rw [e]
  cases h1 : config.autoApprove.any (fun r => matchesRule r toolName input) <;>
    cases h2 : config.notify.any (fun r => matchesRule r toolName input) <;>
      cases h3 : config.requireApproval.any (fun r => matchesRule r toolName input) <;>
        simp

/-- C3.  The glob matcher performs no path normalisation: the concrete
traversal value /sandbox/../x does not match /sandbox/**, because the
globstar never consumes a .. segment, so an un-normalised traversal path is
never classified as if it were inside the sandbox. -/
theorem matchesPattern_no_normalisation :
    matchesPattern (chars "/sandbox/../x") (chars "/sandbox/**") = false := by decide

/-- C4 counterexample.  The negation wrapper is not an exact complement for
every pattern: for the value a/b and the pattern !(x) — itself a negation
pattern — matchesPattern(a/b, !(!(x))) and matchesPattern(a/b, !(x)) are
both true, because the inner call hands !(x) to picomatch, whose extglob
negation (like a star) never matches a value containing a slash. -/
theorem matchesPattern_negation_counterexample :
    ¬ (matchesPattern (chars "a/b") (chars "!(" ++ chars "!(x)" ++ chars ")") =
        !matchesPattern (chars "a/b") (chars "!(x)")) := by decide

/-- C4 amended.  For every value v and every pattern p that is not itself
negation-shaped (startsWith !( and endsWith )), matchesPattern(v, !(p))
equals the exact logical complement of matchesPattern(v, p). -/
theorem matchesPattern_negation_complement (v p : Str)
    (h : negShape p = false) :
    matchesPattern v (chars "!(" ++ p ++ chars ")") = !matchesPattern v p := by
  have hshape : negShape (chars "!(" ++ p ++ chars ")") = true := by
    show negShape ('!' :: '(' :: (p ++ [')'])) = true
    unfold negShape
    simp [List.getLast?_concat]
  have hinner : negInner (chars "!(" ++ p ++ chars ")") = p := by
    show negInner ('!' :: '(' :: (p ++ [')'])) = p
    unfold negInner
    simp [List.dropLast_concat]
  rw [matchesPattern, if_pos hshape, hinner, matchesPattern, if_neg (by simp [h]),
    picomatchIsMatch, if_neg (by simp [h])]

/-- Witness for the amended C4 at a concrete input: /sandbox/* is not
negation-shaped, and wrapping it in !( ) exactly complements the match of
/workspace/file.txt. -/
theorem matchesPattern_negation_complement_witness :
    negShape (chars "/sandbox/*") = false ∧
      matchesPattern (chars "/workspace/file.txt")
          (chars "!(" ++ chars "/sandbox/*" ++ chars ")") =
        !matchesPattern (chars "/workspace/file.txt") (chars "/sandbox/*") :=
  ⟨by decide, matchesPattern_negation_complement _ _ (by decide)⟩

/-! ## Orchestrator claims -/

/-- The loop makes at most as many LLM requests as it has iteration budget. -/
theorem chatGo_llmCalls_le (env : OrchestratorEnv) :
    ∀ fuel calls msgs, (chatGo env fuel calls msgs).llmCalls ≤ calls + fuel := by
  intro fuel
  induction fuel with
  | zero => intro calls msgs; simp [chatGo]
  | succ n ih =>
      intro calls msgs
      simp only [chatGo]
      by_cases h : (env.respond calls).stopReason = chars "tool_use"
      · simp only [if_pos h]
        have := ih (calls + 1)
          (msgs ++ [⟨Role.assistant, MessageContent.blocks (env.respond calls).content⟩] ++
            [⟨Role.user, MessageContent.blocks
              ((toolUses (env.respond calls).content).map (processToolUse env))⟩])
        omega
      · simp only [if_neg h]
        omega

/-- When every response is a tool_use response, the loop exhausts its
budget, returns the fixed max-iterations text and only appends to the
history it was given. -/
theorem chatGo_all_tool_use (env : OrchestratorEnv)
    (h : ∀ n, (env.respond n).stopReason = chars "tool_use") :
    ∀ fuel calls msgs, (chatGo env fuel calls msgs).llmCalls = calls + fuel ∧
      (chatGo env fuel calls msgs).text = maxIterationsMessage ∧
      ∃ delta, (chatGo env fuel calls msgs).messages = msgs ++ delta := by
  intro fuel
  induction fuel with
  | zero => intro calls msgs; exact ⟨rfl, rfl, [], by simp [chatGo]⟩
  | succ n ih =>
      intro calls msgs
      simp only [chatGo, if_pos (h calls)]
      obtain ⟨h1, h2, d, hd⟩ := ih (calls + 1)
        (msgs ++ [⟨Role.assistant, MessageContent.blocks (env.respond calls).content⟩] ++
          [⟨Role.user, MessageContent.blocks
            ((toolUses (env.respond calls).content).map (processToolUse env))⟩])
      refine ⟨by omega, h2,
        ⟨Role.assistant, MessageContent.blocks (env.respond calls).content⟩ ::
          ⟨Role.user, MessageContent.blocks
            ((toolUses (env.respond calls).content).map (processToolUse env))⟩ :: d,
        ?_⟩
      rw [hd]
      simp

/-- C5 amended.  Orchestrator.chat makes at most MAX_ITERATIONS = 10 LLM
round-trips; when every LLM response of the conversation carries stop
reason tool_use, it terminates after exactly 10 round-trips and returns the
fixed max-iterations message together with the history accumulated so far.
The original claim conditions this on the LLM never returning end_turn; the
code in fact leaves the loop on any stop reason other than tool_use. -/
theorem chat_iteration_cap (env : OrchestratorEnv) (msgs : List MessageParam) :
    (chat env msgs).llmCalls ≤ MAX_ITERATIONS ∧
      ((∀ n, (env.respond n).stopReason = chars "tool_use") →
        (chat env msgs).llmCalls = MAX_ITERATIONS ∧
          (chat env msgs).text = maxIterationsMessage ∧
          ∃ delta, (chat env msgs).messages = msgs ++ delta) := by
  constructor
  · simpa [chat] using chatGo_llmCalls_le env MAX_ITERATIONS 0 msgs
  · intro h
    obtain ⟨h1, h2, hd⟩ := chatGo_all_tool_use env h MAX_ITERATIONS 0 msgs
    exact ⟨by simpa [chat] using h1, by simpa [chat] using h2,
      by simpa [chat] using hd⟩

/-- C5 counterexample.  A response sequence whose stop reason is always
max_tokens never returns end_turn, yet chat stops after a single round-trip
with the text of that response — not after 10 iterations with the
max-iterations message as the claim states. -/
theorem chat_never_end_turn_counterexample :
    (chat cexEnv []).llmCalls = 1 ∧
      (chat cexEnv []).text = chars "partial" ∧
      ¬ ((∀ n, (cexEnv.respond n).stopReason ≠ chars "end_turn") →
          (chat cexEnv []).llmCalls = MAX_ITERATIONS ∧
            (chat cexEnv []).text = maxIterationsMessage) := by
  refine ⟨by decide, by decide, fun hclaim => ?_⟩
  have hne : ∀ n, (cexEnv.respond n).stopReason ≠ chars "end_turn" := by
    intro n
    simp only [cexEnv]
    decide
  exact absurd (hclaim hne).1 (by decide)

/-- The tool_result blocks produced for a list of tool calls answer exactly
those calls, in order. -/
theorem resultIdsOf_processed (env : OrchestratorEnv)
    (l : List (Str × Str × ToolInput)) :
    resultIdsOf (l.map (processToolUse env)) = l.map fun tu => tu.1 := by
  induction l with
  | nil => rfl
  | cons a l ih => simp [resultIdsOf, processToolUse, List.filterMap_cons] at ih ⊢; exact ih

/-- Every block produced for a tool call is a tool_result block. -/
theorem processed_isToolResult (env : OrchestratorEnv)
    (l : List (Str × Str × ToolInput)) :
    ∀ b ∈ l.map (processToolUse env), isToolResult b = true := by
  intro b hb
  obtain ⟨tu, _, rfl⟩ := List.mem_map.mp hb
  rfl

/-- The loop only ever appends chunks of the ChatDelta shape. -/
theorem chatGo_delta (env : OrchestratorEnv) :
    ∀ fuel calls msgs, ∃ delta,
      (chatGo env fuel calls msgs).messages = msgs ++ delta ∧ ChatDelta delta := by
  intro fuel
  induction fuel with
  | zero => intro calls msgs; exact ⟨[], by simp [chatGo], ChatDelta.maxed⟩
  | succ n ih =>
      intro calls msgs
      simp only [chatGo]
      by_cases h : (env.respond calls).stopReason = chars "tool_use"
      · simp only [if_pos h]
        obtain ⟨d, hd, hcd⟩ := ih (calls + 1)
          (msgs ++ [⟨Role.assistant, MessageContent.blocks (env.respond calls).content⟩] ++
            [⟨Role.user, MessageContent.blocks
              ((toolUses (env.respond calls).content).map (processToolUse env))⟩])
        refine ⟨⟨Role.assistant, MessageContent.blocks (env.respond calls).content⟩ ::
          ⟨Role.user, MessageContent.blocks
            ((toolUses (env.respond calls).content).map (processToolUse env))⟩ :: d,
          ?_, ChatDelta.step _ _ _ (processed_isToolResult env _)
            (resultIdsOf_processed env _) hcd⟩
        rw [hd]
        simp
      · simp only [if_neg h]
        exact ⟨[⟨Role.assistant,
          MessageContent.ofString (textBlocks (env.respond calls).content).flatten⟩],
          by simp, ChatDelta.final _⟩

/-- Across a ChatDelta the tool_result ids replay the tool_call ids. -/
theorem chatDelta_ids (delta : List MessageParam) (h : ChatDelta delta) :
    toolResultIds delta = toolCallIds delta := by
  induction h with
  | maxed => rfl
  | final t => rfl
  | step bs rs rest hall hids hrest ih =>
      simp only [toolResultIds, toolCallIds, List.map_cons, List.flatten_cons] at ih ⊢
      simp [hids, ih]

/-- C6.  What one chat call appends to the history is a run of iteration
chunks: each assistant turn carrying tool calls is followed by exactly one
user-role tool_results turn whose blocks are all tool results and answer
exactly that turn's tool calls in the same order; consequently the
tool_result ids of the appended turn replay its tool_call ids, and in
particular the two counts are equal. -/
theorem chat_tool_results_aligned (env : OrchestratorEnv)
    (msgs : List MessageParam) :
    ∃ delta, (chat env msgs).messages = msgs ++ delta ∧ ChatDelta delta ∧
      toolResultIds delta = toolCallIds delta ∧
      (toolResultIds delta).length = (toolCallIds delta).length := by
  obtain ⟨d, hd, hc⟩ := chatGo_delta env MAX_ITERATIONS 0 msgs
  exact ⟨d, hd, hc, chatDelta_ids d hc, by rw [chatDelta_ids d hc]⟩

/-- The number of LLM round-trips depends only on the response sequence,
never on gate decisions or dispatch results: a rejection makes the loop
continue, not abort. -/
theorem chatGo_llmCalls_env (e1 e2 : OrchestratorEnv)
    (h : e1.respond = e2.respond) :
    ∀ fuel calls msgs1 msgs2,
      (chatGo e1 fuel calls msgs1).llmCalls = (chatGo e2 fuel calls msgs2).llmCalls := by
  intro fuel
  induction fuel with
  | zero => intro calls msgs1 msgs2; rfl
  | succ n ih =>
      intro calls msgs1 msgs2
      simp only [chatGo, ← h]
      by_cases hc : (e1.respond calls).stopReason = chars "tool_use"
      · simp only [if_pos hc]
        exact ih _ _ _
      · simp only [if_neg hc]

/-- C7.  When the gate declines a tool call, the block produced for it is a
tool_result carrying the fixed rejection message — which contains the
phrase rejected by the user — the dispatcher plays no part in it (the
result is the same under every dispatcher), and the loop continues: the
number of LLM round-trips of a chat call is the same under every gate. -/
theorem chat_rejection_no_dispatch (env : OrchestratorEnv) (id name : Str)
    (input : ToolInput) (h : (env.gate name input).proceed = false) :
    processToolUse env (id, name, input) =
        ContentBlock.toolResult id (rejectionMessage name) ∧
      (∀ d, processToolUse { env with dispatch := d } (id, name, input) =
        processToolUse env (id, name, input)) ∧
      List.IsInfix (chars "rejected by the user") (rejectionMessage name) ∧
      (∀ g msgs, (chat { env with gate := g } msgs).llmCalls =
        (chat env msgs).llmCalls) := by
  refine ⟨?_, ?_, ?_, ?_⟩
  · simp [processToolUse, resultContentFor, h]
  · intro d
    simp [processToolUse, resultContentFor, h]
  · refine ⟨chars "Action ",
      chars ". The user declined to approve: " ++ name ++
        chars ". Please adjust your approach or ask the user how they would like to proceed.",
      ?_⟩
    have hpre : chars "Action " ++ chars "rejected by the user" ++
        chars ". The user declined to approve: " =
        chars "Action rejected by the user. The user declined to approve: " := by decide
    rw [rejectionMessage, ← hpre]
    simp
  · intro g msgs
    simp only [chat]
    exact chatGo_llmCalls_env { env with gate := g } env rfl MAX_ITERATIONS 0 msgs msgs

/-- Witness for C7 at a concrete input: the rejecting environment declines
run_shell_command and the produced block is the rejection tool_result. -/
theorem chat_rejection_no_dispatch_witness :
    (rejEnv.gate (chars "run_shell_command") []).proceed = false ∧
      processToolUse rejEnv (chars "call-1", chars "run_shell_command", []) =
        ContentBlock.toolResult (chars "call-1")
          (rejectionMessage (chars "run_shell_command")) :=
  ⟨rfl, (chat_rejection_no_dispatch rejEnv _ _ _ rfl).1⟩

/-- C8.  In the memory-aware tool processing modelled from the spec, a tool
call named save_memory or search_memory runs in-process — its result is the
memory executor's answer, the same under every gate and dispatcher — while
every other tool call takes the gated path of the loop. -/
theorem memory_tools_skip_gate (m : MemoryEnv) (id name : Str)
    (input : ToolInput) :
    (name ∈ memoryToolNames →
      processToolUseMem m (id, name, input) =
          ContentBlock.toolResult id (m.memoryExec name input) ∧
        ∀ g d, processToolUseMem { m with gate := g, dispatch := d } (id, name, input) =
          processToolUseMem m (id, name, input)) ∧
      (name ∉ memoryToolNames →
        processToolUseMem m (id, name, input) =
          ContentBlock.toolResult id
            (resultContentFor m.gate m.dispatch m.maxOutput name input)) := by
  refine ⟨fun h => ⟨?_, fun g d => ?_⟩, fun h => ?_⟩
  · simp [processToolUseMem, h]
  · simp [processToolUseMem, h]
  · simp [processToolUseMem, h]

/-! ## Soul and skills claims -/

/-- C9.  With a blessed hash in place, reading the soul file through the
safe wrapper returns the fixed fallback identity and records a
soul_tamper_detected audit event when the hash of the file content differs
from the blessed hash — the thrown integrity error is caught, never fatal —
and returns the file content unchanged, with no tamper event, when the hash
matches. -/
theorem soul_hash_mismatch_fallback (hash : Str → Str) (blessed content : Str)
    (hb : blessed ≠ []) :
    (hash content ≠ blessed →
      soulGetContentSafe hash blessed (some content) =
        (FALLBACK_IDENTITY, [SoulEvent.soulTamperDetected blessed (hash content)])) ∧
      (hash content = blessed →
        soulGetContentSafe hash blessed (some content) = (content, [])) := by
  constructor
  · intro hm
    simp [soulGetContentSafe, soulGetContent, hb, hm]
  · intro hm
    simp [soulGetContentSafe, soulGetContent, hm]

/-- Witness for C9 at a concrete input: under the identity hash function a
tampered content hashes to itself, differing from the blessed hash, and the
safe read yields the fallback identity plus a tamper event. -/
theorem soul_hash_mismatch_fallback_witness :
    chars "blessed" ≠ ([] : Str) ∧
      soulGetContentSafe (fun s => s) (chars "blessed") (some (chars "tampered")) =
        (FALLBACK_IDENTITY,
          [SoulEvent.soulTamperDetected (chars "blessed") (chars "tampered")]) :=
  ⟨by decide, (soul_hash_mismatch_fallback (fun s => s) _ _ (by decide)).1 (by decide)⟩

/-- The running character total keeps the returned contents within what
remains of the budget. -/
theorem getAlwaysLoadContentGo_budget (budget : Nat) :
    ∀ skills used, sumLens (getAlwaysLoadContentGo budget skills used) ≤ budget - used := by
  intro skills
  induction skills with
  | nil => intro used; simp [getAlwaysLoadContentGo, sumLens]
  | cons s rest ih =>
      intro used
      simp only [getAlwaysLoadContentGo]
      by_cases h1 : s.enabled && s.alwaysLoad
      · simp only [if_pos h1]
        cases hc : s.content with
        | none => exact ih used
        | some c =>
            by_cases h2 : c = []
            · simp only [if_pos h2]
              exact ih used
            · simp only [if_neg h2]
              by_cases h3 : used + c.length > budget
              · simp only [if_pos h3]
                exact ih used
              · simp only [if_neg h3]
                have := ih (used + c.length)
                simp only [sumLens, List.map_cons, List.sum_cons] at this ⊢
                omega
      · simp only [if_neg h1]
        exact ih used

/-- Every returned pair comes from an enabled alwaysLoad skill of the list,
with that skill's name and content. -/
theorem getAlwaysLoadContentGo_mem (budget : Nat) :
    ∀ skills used p, p ∈ getAlwaysLoadContentGo budget skills used →
      ∃ s ∈ skills, s.enabled = true ∧ s.alwaysLoad = true ∧
        s.name = p.1 ∧ s.content = some p.2 := by
  intro skills
  induction skills with
  | nil => intro used p hp; simp [getAlwaysLoadContentGo] at hp
  | cons s rest ih =>
      intro used p hp
      simp only [getAlwaysLoadContentGo] at hp
      by_cases h1 : s.enabled && s.alwaysLoad
      · simp only [if_pos h1] at hp
        cases hc : s.content with
        | none =>
            simp only [hc] at hp
            obtain ⟨t, ht, hprop⟩ := ih used p hp
            exact ⟨t, List.mem_cons_of_mem s ht, hprop⟩
        | some c =>
            simp only [hc] at hp
            by_cases h2 : c = []
            · simp only [if_pos h2] at hp
              obtain ⟨t, ht, hprop⟩ := ih used p hp
              exact ⟨t, List.mem_cons_of_mem s ht, hprop⟩
            · simp only [if_neg h2] at hp
              by_cases h3 : used + c.length > budget
              · simp only [if_pos h3] at hp
                obtain ⟨t, ht, hprop⟩ := ih used p hp
                exact ⟨t, List.mem_cons_of_mem s ht, hprop⟩
              · simp only [if_neg h3] at hp
                rcases List.mem_cons.mp hp with hph | hpt
                · subst hph
                  have h1a : s.enabled = true ∧ s.alwaysLoad = true := by simpa using h1
                  exact ⟨s, List.mem_cons_self s rest, h1a.1, h1a.2, rfl, hc⟩
                · obtain ⟨t, ht, hprop⟩ := ih (used + c.length) p hpt
                  exact ⟨t, List.mem_cons_of_mem s ht, hprop⟩
      · simp only [if_neg h1] at hp
        obtain ⟨t, ht, hprop⟩ := ih used p hp
        exact ⟨t, List.mem_cons_of_mem s ht, hprop⟩

/-- C10.  getAlwaysLoadContent returns only enabled alwaysLoad skills, the
cumulative length of the returned contents never exceeds the budget, and a
skill whose content would push the running total over the budget is skipped
with iteration continuing — at the concrete two-skill input with budget 4,
the five-character skill is skipped and the later three-character skill is
still included. -/
theorem getAlwaysLoadContent_budget_respected (skills : List Skill) (budget : Nat) :
    sumLens (getAlwaysLoadContent skills budget) ≤ budget ∧
      (∀ p ∈ getAlwaysLoadContent skills budget, ∃ s ∈ skills,
        s.enabled = true ∧ s.alwaysLoad = true ∧ s.name = p.1 ∧ s.content = some p.2) ∧
      getAlwaysLoadContent demoSkills 4 = [(chars "tiny", chars "abc")] := by
  refine ⟨?_, ?_, by decide⟩
  · simpa [getAlwaysLoadContent] using getAlwaysLoadContentGo_budget budget skills 0
  · intro p hp
    exact getAlwaysLoadContentGo_mem budget skills 0 p hp

end ArgusClaw
